import Mathlib

/-!
Shallow embedding of `src/tracker/utils/order_type_detector.py`.

The module has three functions:
  * `determine_order_type_from_codes(item_codes)` — normalizes the raw item
    codes, resolves them against the `LabourCode` table, and classifies the
    order as `labour` / `service` / `sales` / `mixed`;
  * `_normalize_category_to_order_type(category)` — maps a single category
    string to an order type;
  * `get_mixed_order_status_display(order_type, categories)` — renders a
    display label.

Python values in the input list may be arbitrary (the signature says
`List[str]`, but the code guards with `if code` and coerces with `str(code)`),
so inputs are modelled by a small `PyVal` type covering strings, `None` and
integers, with Python truthiness and `str()` coercion.  The Django query
`LabourCode.objects.filter(code__in=cleaned_codes, is_active=True)` is
modelled as a filter over an explicit table `db : List LabourCode`, returning
rows in table order (a stable deterministic order, as the spec requires).
Python `dict` is modelled as an association list with insert-or-update
(`insertAssoc`), Python `set` as a duplicate-free list grown by `setInsert`;
only membership in these sets is relevant to the decision logic.
A Python dict that may lack the `'categories_found'` key is modelled by an
`Option` field in `MappingInfo` (`none` = key absent).
-/

/-- Python values that can appear in the `item_codes` list. -/
inductive PyVal where
  | pstr (s : String)
  | pnone
  | pint (n : Int)
deriving DecidableEq

/-- Python `str.strip()` on a character list: drop whitespace from both
ends. -/
def stripChars (l : List Char) : List Char :=
  ((l.dropWhile Char.isWhitespace).reverse.dropWhile Char.isWhitespace).reverse

/-- Python `s.strip()` on a string. -/
def pyStrip (s : String) : String :=
  (stripChars s.data).asString

/-- Python `s.lower()` on a string (ASCII case mapping). -/
def pyLower (s : String) : String :=
  (s.data.map Char.toLower).asString

/-- Python truthiness: `""`, `None` and `0` are falsy. -/
def PyVal.truthy : PyVal → Bool
  | .pstr s => s ≠ ""
  | .pnone => false
  | .pint n => n ≠ 0

/-- Python `str()` coercion. -/
def PyVal.pyStr : PyVal → String
  | .pstr s => s
  | .pnone => "None"
  | .pint n => toString n

/-- A row of the `LabourCode` table (the external lookup collaborator). -/
structure LabourCode where
  code : String
  category : String
  is_active : Bool
deriving DecidableEq

/-- The `mapping_info` dict returned by `determine_order_type_from_codes`.
`categories_found = none` models the dict lacking that key (as happens on the
early-return paths of the Python code, which build the literal
`{'mapped': {}, 'unmapped': []}`). -/
structure MappingInfo where
  mapped : List (String × String)
  unmapped : List String
  categories_found : Option (List String)
deriving DecidableEq

/-- The list comprehension
`[str(code).strip() for code in item_codes if code]` (line 33): keep the
entries that are truthy BEFORE coercion, then coerce to string and strip. -/
def cleanedCodes : List PyVal → List String
  | [] => []
  | v :: vs =>
    if v.truthy then pyStrip v.pyStr :: cleanedCodes vs else cleanedCodes vs

/-- The Django query
`LabourCode.objects.filter(code__in=cleaned_codes, is_active=True).values('code', 'category')`
(lines 38-41): active rows whose code occurs among the cleaned codes,
projected to (code, category) pairs, in table order. -/
def queryFoundCodes (db : List LabourCode) (cleaned : List String) :
    List (String × String) :=
  (db.filter fun r => r.is_active && cleaned.contains r.code).map
    fun r => (r.code, r.category)

/-- Python dict assignment `d[k] = v`: update the value in place if the key
is present, otherwise append the new binding. -/
def insertAssoc (m : List (String × String)) (k v : String) :
    List (String × String) :=
  if m.any fun p => p.1 = k then
    m.map fun p => if p.1 = k then (k, v) else p
  else
    m ++ [(k, v)]

/-- Python `set.add`: append the element unless already present. -/
def setInsert (s : List String) (x : String) : List String :=
  if x ∈ s then s else s ++ [x]

/-- The `code_to_category` dict built by the loop over `found_codes`
(lines 48-54): `code_to_category[code] = category` for each row. -/
def codeToCategory (rows : List (String × String)) : List (String × String) :=
  rows.foldl (fun m row => insertAssoc m row.1 row.2) []

/-- The `categories_found` set built by the same loop:
`categories_found.add(category)` for each row. -/
def categoriesFound (rows : List (String × String)) : List String :=
  rows.foldl (fun s row => setInsert s row.2) []

/-- The `found_code_set` set built by the same loop:
`found_code_set.add(code)` for each row. -/
def foundCodeSet (rows : List (String × String)) : List String :=
  rows.foldl (fun s row => setInsert s row.1) []

/-- Bool-valued contiguous-substring test on character lists, the semantics of
Python `needle in haystack` for strings. -/
def substrB (needle : List Char) : List Char → Bool
  | [] => needle.isEmpty
  | c :: cs => needle.isPrefixOf (c :: cs) || substrB needle cs

/-- Python `needle in haystack` on strings. -/
def containsSub (needle haystack : String) : Bool :=
  substrB needle.data haystack.data

/-- `_normalize_category_to_order_type` (lines 87-107). -/
def normalizeCategoryToOrderType (category : String) : String :=
  if category = "" then "sales"
  else
    let category_lower := pyStrip (pyLower category)
    if category_lower = "labour" then "labour"
    else if containsSub "tyre" category_lower ||
        containsSub "service" category_lower then "service"
    else "labour"

/-- Lexicographic (code-point) order on character lists, the semantics of
Python `a <= b` for strings. -/
def charLe : List Char → List Char → Bool
  | [], _ => true
  | _ :: _, [] => false
  | a :: as, b :: bs =>
    if a < b then true
    else if b < a then false
    else charLe as bs

/-- Python `a <= b` on strings. -/
def strLeB (a b : String) : Bool :=
  charLe a.data b.data

/-- Insert a string into a sorted list, keeping it sorted. -/
def insertSorted (x : String) : List String → List String
  | [] => [x]
  | y :: ys => if strLeB x y then x :: y :: ys else y :: insertSorted x ys

/-- Python `sorted` on a list of strings: ascending lexicographic,
case-sensitive (code-point) order, modelled as insertion sort.  The only use
site sorts `list(categories_found)`, a duplicate-free list, on which every
correct comparison sort agrees. -/
def sortStrings : List String → List String
  | [] => []
  | x :: xs => insertSorted x (sortStrings xs)

/-- The decision block of `determine_order_type_from_codes` (lines 62-71),
from the `categories_found` set to `(order_type, categories)`. -/
def classifyCategories (cats : List String) : String × List String :=
  match cats with
  | [] => ("sales", [])
  | [c] => (normalizeCategoryToOrderType c, [c])
  | _ => ("mixed", sortStrings cats)

/-- `determine_order_type_from_codes` (lines 14-84), parametrized by the
`LabourCode` table `db`. -/
def determineOrderTypeFromCodes (db : List LabourCode)
    (item_codes : List PyVal) : String × List String × MappingInfo :=
  if item_codes = [] then
    ("sales", [], ⟨[], [], none⟩)
  else
    let cleaned := cleanedCodes item_codes
    if cleaned = [] then
      ("sales", [], ⟨[], [], none⟩)
    else
      let rows := queryFoundCodes db cleaned
      let code_to_category := codeToCategory rows
      let unmapped := cleaned.filter fun c => !((foundCodeSet rows).contains c)
      let p := classifyCategories (categoriesFound rows)
      (p.1, p.2, ⟨code_to_category, unmapped, some p.2⟩)

/-- Python `str.title()`: a character is uppercased when the previous
character is not alphabetic, lowercased otherwise. -/
def titleChars : List Char → Bool → List Char
  | [], _ => []
  | c :: cs, prevAlpha =>
    (if prevAlpha then c.toLower else c.toUpper) :: titleChars cs c.isAlpha

/-- Python `s.title()` on a string. -/
def pyTitle (s : String) : String :=
  (titleChars s.data false).asString

/-- `get_mixed_order_status_display` (lines 110-133). -/
def get_mixed_order_status_display (order_type : String)
    (categories : List String) : String :=
  if order_type = "mixed" && !categories.isEmpty then
    "Mixed (" ++ String.intercalate ", " (categories.map pyTitle) ++ ")"
  else if order_type = "labour" then "Labour"
  else if order_type = "service" then "Service"
  else if order_type = "sales" then "Sales"
  else if order_type = "inquiry" then "Inquiry"
  else pyTitle order_type

/-!
Helper lemmas about the set and dict accumulators.
-/

theorem mem_setInsert {s : List String} {x y : String} :
    y ∈ setInsert s x ↔ y ∈ s ∨ y = x := by
  unfold setInsert
  split
  · next h =>
    constructor
    · exact Or.inl
    · rintro (hy | rfl)
      · exact hy
      · exact h
  · simp

theorem nodup_setInsert {s : List String} (h : s.Nodup) (x : String) :
    (setInsert s x).Nodup := by
  unfold setInsert
  split
  · exact h
  · next hx => simp [List.nodup_append, h, hx]

theorem mem_foldl_setInsert (f : String × String → String)
    (rows : List (String × String)) (init : List String) (x : String) :
    x ∈ rows.foldl (fun s row => setInsert s (f row)) init ↔
      x ∈ init ∨ x ∈ rows.map f := by
  induction rows generalizing init with
  | nil => simp
  | cons r rs ih =>
    simp only [List.foldl_cons, List.map_cons, List.mem_cons]
    rw [ih, mem_setInsert]
    tauto

theorem nodup_foldl_setInsert (f : String × String → String)
    (rows : List (String × String)) (init : List String) (h : init.Nodup) :
    (rows.foldl (fun s row => setInsert s (f row)) init).Nodup := by
  induction rows generalizing init with
  | nil => exact h
  | cons r rs ih => exact ih _ (nodup_setInsert h _)

theorem mem_foundCodeSet {rows : List (String × String)} {x : String} :
    x ∈ foundCodeSet rows ↔ x ∈ rows.map Prod.fst := by
  unfold foundCodeSet
  rw [mem_foldl_setInsert Prod.fst rows [] x]
  simp

theorem mem_categoriesFound {rows : List (String × String)} {x : String} :
    x ∈ categoriesFound rows ↔ x ∈ rows.map Prod.snd := by
  unfold categoriesFound
  rw [mem_foldl_setInsert Prod.snd rows [] x]
  simp

theorem nodup_categoriesFound (rows : List (String × String)) :
    (categoriesFound rows).Nodup :=
  nodup_foldl_setInsert Prod.snd rows [] List.nodup_nil

theorem keys_insertAssoc (m : List (String × String)) (k v : String) :
    ((insertAssoc m k v).map Prod.fst = m.map Prod.fst ∧ k ∈ m.map Prod.fst) ∨
      (insertAssoc m k v).map Prod.fst = m.map Prod.fst ++ [k] := by
  unfold insertAssoc
  split
  · next hany =>
    left
    constructor
    · rw [List.map_map]
      apply List.map_congr_left
      intro p _
      by_cases hp : p.1 = k
      · simp [hp]
      · simp [hp]
    · rw [List.any_eq_true] at hany
      rcases hany with ⟨p, hp, hpk⟩
      simp only [decide_eq_true_eq] at hpk
      exact hpk ▸ List.mem_map_of_mem Prod.fst hp
  · right
    simp

theorem mem_keys_codeToCategory {rows : List (String × String)} {x : String} :
    x ∈ (codeToCategory rows).map Prod.fst ↔ x ∈ rows.map Prod.fst := by
  unfold codeToCategory
  suffices h : ∀ (init : List (String × String)),
      x ∈ (rows.foldl (fun m row => insertAssoc m row.1 row.2) init).map Prod.fst ↔
        x ∈ init.map Prod.fst ∨ x ∈ rows.map Prod.fst by
    rw [h []]
    simp
  induction rows with
  | nil => simp
  | cons r rs ih =>
    intro init
    simp only [List.foldl_cons, List.map_cons, List.mem_cons]
    rw [ih (insertAssoc init r.1 r.2)]
    rcases keys_insertAssoc init r.1 r.2 with ⟨heq, hk⟩ | h
    · rw [heq]
      constructor
      · rintro (h1 | h2)
        · exact Or.inl h1
        · exact Or.inr (Or.inr h2)
      · rintro (h1 | rfl | h2)
        · exact Or.inl h1
        · exact Or.inl hk
        · exact Or.inr h2
    · rw [h]
      simp only [List.mem_append, List.mem_singleton]
      tauto

/-!
Helper lemmas about the lexicographic comparison and the sort.
-/

theorem charLe_iff (x : List Char) :
    ∀ y : List Char, charLe x y = true ↔ ¬ List.lt y x := by
  induction x with
  | nil =>
    intro y
    simp only [charLe]
    constructor
    · intro _ h
      cases h
    · intro _
      trivial
  | cons a as ih =>
    intro y
    cases y with
    | nil =>
      simp only [charLe]
      constructor
      · intro h
        simp at h
      · intro h
        exact absurd (List.lt.nil a as) h
    | cons b bs =>
      rw [charLe]
      by_cases hab : a < b
      · rw [if_pos hab]
        constructor
        · intro _ h
          cases h with
          | head _ _ hba => exact lt_asymm hab hba
          | tail h1 h2 h3 => exact h2 hab
        · intro _
          rfl
      · rw [if_neg hab]
        by_cases hba : b < a
        · rw [if_pos hba]
          constructor
          · intro h
            simp at h
          · intro h
            exact absurd (List.lt.head bs as hba) h
        · rw [if_neg hba]
          rw [ih bs]
          constructor
          · intro hn h
            cases h with
            | head _ _ h' => exact hba h'
            | tail h1 h2 h3 => exact hn h3
          · intro hn h3
            exact hn (List.lt.tail hba hab h3)

theorem strLeB_iff (a b : String) : strLeB a b = true ↔ a ≤ b := by
  rw [strLeB, charLe_iff, String.le_iff_toList_le]
  constructor
  · intro h
    refine le_of_not_lt fun hlt => h ?_
    exact (List.lt_iff_lex_lt _ _).mpr hlt
  · intro h hlt
    exact not_lt.mpr h ((List.lt_iff_lex_lt _ _).mp hlt)

theorem strLeB_total (a b : String) : strLeB a b = true ∨ strLeB b a = true := by
  rcases le_total a b with h | h
  · exact Or.inl ((strLeB_iff a b).mpr h)
  · exact Or.inr ((strLeB_iff b a).mpr h)

theorem perm_insertSorted (x : String) :
    ∀ l : List String, (insertSorted x l).Perm (x :: l)
  | [] => List.Perm.refl _
  | y :: ys => by
    rw [insertSorted]
    split
    · exact List.Perm.refl _
    · exact ((perm_insertSorted x ys).cons y).trans (List.Perm.swap x y ys)

theorem mem_insertSorted {x z : String} {l : List String} :
    z ∈ insertSorted x l ↔ z = x ∨ z ∈ l := by
  rw [(perm_insertSorted x l).mem_iff]
  simp

theorem pairwise_insertSorted (x : String) :
    ∀ l : List String, l.Pairwise (fun a b => a ≤ b) →
      (insertSorted x l).Pairwise (fun a b => a ≤ b)
  | [], _ => by simp [insertSorted]
  | y :: ys, h => by
    rw [insertSorted]
    rcases List.pairwise_cons.mp h with ⟨hy, hys⟩
    split
    · next hxy =>
      have hle : x ≤ y := (strLeB_iff x y).mp hxy
      refine List.pairwise_cons.mpr ⟨?_, h⟩
      intro z hz
      rcases List.mem_cons.mp hz with rfl | hz'
      · exact hle
      · exact le_trans hle (hy z hz')
    · next hxy =>
      have hyx : y ≤ x := by
        rcases strLeB_total x y with h' | h'
        · exact absurd h' hxy
        · exact (strLeB_iff y x).mp h'
      refine List.pairwise_cons.mpr ⟨?_, pairwise_insertSorted x ys hys⟩
      intro z hz
      rcases mem_insertSorted.mp hz with rfl | hz'
      · exact hyx
      · exact hy z hz'

theorem perm_sortStrings : ∀ l : List String, (sortStrings l).Perm l
  | [] => List.Perm.refl _
  | x :: xs =>
    (perm_insertSorted x (sortStrings xs)).trans ((perm_sortStrings xs).cons x)

theorem pairwise_sortStrings :
    ∀ l : List String, (sortStrings l).Pairwise (fun a b => a ≤ b)
  | [] => List.Pairwise.nil
  | x :: xs => pairwise_insertSorted x (sortStrings xs) (pairwise_sortStrings xs)

/-!
Helper lemmas about the query and the main function.
-/

theorem mem_queryFoundCodes {db : List LabourCode} {cleaned : List String}
    {r : String × String} (h : r ∈ queryFoundCodes db cleaned) :
    r.1 ∈ cleaned := by
  unfold queryFoundCodes at h
  rcases List.mem_map.mp h with ⟨row, hrow, rfl⟩
  have h2 := (List.mem_filter.mp hrow).2
  simp only [Bool.and_eq_true] at h2
  simpa using h2.2

theorem determine_eq (db : List LabourCode) (l : List PyVal)
    (h : cleanedCodes l ≠ []) :
    determineOrderTypeFromCodes db l =
      ((classifyCategories (categoriesFound (queryFoundCodes db (cleanedCodes l)))).1,
       (classifyCategories (categoriesFound (queryFoundCodes db (cleanedCodes l)))).2,
       ⟨codeToCategory (queryFoundCodes db (cleanedCodes l)),
        (cleanedCodes l).filter
          (fun c => !((foundCodeSet (queryFoundCodes db (cleanedCodes l))).contains c)),
        some (classifyCategories (categoriesFound (queryFoundCodes db (cleanedCodes l)))).2⟩) := by
  have hl : l ≠ [] := by
    intro he
    subst he
    exact h rfl
  simp only [determineOrderTypeFromCodes, if_neg hl, if_neg h]

theorem classifyCategories_one (c : String) :
    classifyCategories [c] = (normalizeCategoryToOrderType c, [c]) := rfl

theorem classifyCategories_two {cats : List String} (h : 2 ≤ cats.length) :
    classifyCategories cats = ("mixed", sortStrings cats) := by
  cases cats with
  | nil => simp at h
  | cons a t =>
    cases t with
    | nil => simp at h
    | cons b t' => rfl

theorem queryFoundCodes_nil (db : List LabourCode) : queryFoundCodes db [] = [] := by
  unfold queryFoundCodes
  simp only [List.contains_nil, Bool.and_false, List.filter_false, List.map_nil]

theorem unmapped_eq (db : List LabourCode) (l : List PyVal)
    (h : cleanedCodes l ≠ []) :
    (determineOrderTypeFromCodes db l).2.2.unmapped =
      (cleanedCodes l).filter
        (fun c => !((foundCodeSet (queryFoundCodes db (cleanedCodes l))).contains c)) := by
  rw [determine_eq db l h]

theorem orderType_eq (db : List LabourCode) (l : List PyVal)
    (h : cleanedCodes l ≠ []) :
    (determineOrderTypeFromCodes db l).1 =
      (classifyCategories (categoriesFound (queryFoundCodes db (cleanedCodes l)))).1 := by
  rw [determine_eq db l h]

theorem categories_eq (db : List LabourCode) (l : List PyVal)
    (h : cleanedCodes l ≠ []) :
    (determineOrderTypeFromCodes db l).2.1 =
      (classifyCategories (categoriesFound (queryFoundCodes db (cleanedCodes l)))).2 := by
  rw [determine_eq db l h]

theorem normalizeCategory_mem (c : String) :
    normalizeCategoryToOrderType c ∈
      (["labour", "service", "sales", "mixed"] : List String) := by
  by_cases h1 : c = ""
  · simp [normalizeCategoryToOrderType, h1]
  · by_cases h2 : pyStrip (pyLower c) = "labour"
    · simp [normalizeCategoryToOrderType, h1, h2]
    · by_cases h3 : (containsSub "tyre" (pyStrip (pyLower c)) ||
          containsSub "service" (pyStrip (pyLower c))) = true
      · simp [normalizeCategoryToOrderType, h1, h2, h3]
      · simp [normalizeCategoryToOrderType, h1, h2, h3]

/-!
Claim theorems.
-/

/-- C1: the claim says the degenerate (empty or all-falsy input) result is
`('sales', [], {mapped: {}, unmapped: [], categories_found: []})` with all
three `mapping_info` fields present.  The code (lines 27-28 and 34-35)
actually returns the two-field dict `{'mapped': {}, 'unmapped': []}` with no
`'categories_found'` key (modelled as `categories_found = none`): the
`order_type`, `categories`, `mapped` and `unmapped` parts agree with the
claim, but the third field is absent. -/
theorem C1_degenerate_mapping_info :
    determineOrderTypeFromCodes [] [] = ("sales", [], ⟨[], [], none⟩) ∧
    determineOrderTypeFromCodes [⟨"LAB01", "labour", true⟩]
        [PyVal.pstr "", PyVal.pnone, PyVal.pint 0] =
      ("sales", [], ⟨[], [], none⟩) ∧
    (determineOrderTypeFromCodes [] []).2.2.categories_found ≠ some [] := by
  refine ⟨by decide, by decide, by decide⟩

/-- C2 counterexample: the claim says an entry consisting only of whitespace
is dropped and never appears in the normalized code list or in `unmapped`.
In the code the truthiness filter runs on the RAW entry before coercion
(line 33), so the truthy entry `" "` survives and is normalized to `""`,
which appears in both the cleaned list and `unmapped`. -/
theorem C2_counterexample :
    ¬ ("" ∉ cleanedCodes [PyVal.pstr " "] ∧
       "" ∉ (determineOrderTypeFromCodes [] [PyVal.pstr " "]).2.2.unmapped) := by
  decide

/-- C2 (amended): normalization drops the entries that are falsy BEFORE
coercion, then coerces each survivor to its string form and strips
surrounding whitespace; an entry that becomes empty only after stripping
(e.g. a whitespace-only string) is kept as the empty string. -/
theorem C2_normalization (l : List PyVal) :
    cleanedCodes l = (l.filter fun v => v.truthy).map fun v => pyStrip v.pyStr := by
  induction l with
  | nil => rfl
  | cons v vs ih =>
    by_cases h : v.truthy <;> simp [cleanedCodes, List.filter_cons, h, ih]

/-- C6: `_normalize_category_to_order_type` maps a category that is non-empty
after trimming, whose lower-cased trimmed form is not exactly `labour` and
contains neither `tyre` nor `service`, to `labour` (the catch-all fallback);
the empty category to `sales`; and a category whose lower-cased trimmed form
contains `tyre` or `service` to `service`. -/
theorem C6_normalize_category :
    (∀ category : String,
        pyStrip category ≠ "" →
        pyStrip (pyLower category) ≠ "labour" →
        containsSub "tyre" (pyStrip (pyLower category)) = false →
        containsSub "service" (pyStrip (pyLower category)) = false →
        normalizeCategoryToOrderType category = "labour") ∧
    normalizeCategoryToOrderType "" = "sales" ∧
    (∀ category : String,
        (containsSub "tyre" (pyStrip (pyLower category)) = true ∨
          containsSub "service" (pyStrip (pyLower category)) = true) →
        normalizeCategoryToOrderType category = "service") := by
  refine ⟨?_, by decide, ?_⟩
  · intro cat h1 h2 h3 h4
    have hne : cat ≠ "" := by
      intro he
      subst he
      exact h1 rfl
    simp only [normalizeCategoryToOrderType, if_neg hne, if_neg h2, h3, h4,
      Bool.or_false, if_neg (Bool.false_ne_true)]
  · intro cat h
    have hne : cat ≠ "" := by
      intro he
      subst he
      rcases h with h | h
      · exact absurd h (by decide)
      · exact absurd h (by decide)
    have hlab : pyStrip (pyLower cat) ≠ "labour" := by
      intro he
      rw [he] at h
      rcases h with h | h
      · exact absurd h (by decide)
      · exact absurd h (by decide)
    have hor : (containsSub "tyre" (pyStrip (pyLower cat)) ||
        containsSub "service" (pyStrip (pyLower cat))) = true := by
      rcases h with h | h
      · rw [h]
        exact Bool.true_or _
      · rw [h]
        exact Bool.or_true _
    simp [normalizeCategoryToOrderType, if_neg hne, if_neg hlab, hor]

/-- C6 witness: the fallback rule at `"makill"`, the empty category, and a
category containing `tyre`/`service` at `"Tyre Service / makill"`. -/
theorem C6_witness :
    normalizeCategoryToOrderType "makill" = "labour" ∧
    normalizeCategoryToOrderType "" = "sales" ∧
    normalizeCategoryToOrderType "Tyre Service / makill" = "service" :=
  ⟨C6_normalize_category.1 "makill" (by decide) (by decide) (by decide)
      (by decide),
    C6_normalize_category.2.1,
    C6_normalize_category.2.2 "Tyre Service / makill" (Or.inl (by decide))⟩

/-- C7: `get_mixed_order_status_display('mixed', ['labour', 'tyre service'])`
is exactly `'Mixed (Labour, Tyre Service)'`, and for the order types
`labour`, `service`, `sales`, `inquiry` the result is the corresponding fixed
capitalized word for every categories list. -/
theorem C7_display :
    get_mixed_order_status_display "mixed" ["labour", "tyre service"] =
      "Mixed (Labour, Tyre Service)" ∧
    (∀ categories : List String,
      get_mixed_order_status_display "labour" categories = "Labour" ∧
      get_mixed_order_status_display "service" categories = "Service" ∧
      get_mixed_order_status_display "sales" categories = "Sales" ∧
      get_mixed_order_status_display "inquiry" categories = "Inquiry") := by
  refine ⟨by decide, ?_⟩
  intro categories
  refine ⟨?_, ?_, ?_, ?_⟩ <;> simp [get_mixed_order_status_display]

/-- C10: with a single active lookup row whose category is the empty string,
the function returns order type `sales` together with the NON-empty
categories list `['']`, so a `sales` result does not imply an empty
categories list. -/
theorem C10_empty_category_sales :
    (determineOrderTypeFromCodes [⟨"X", "", true⟩] [PyVal.pstr "X"]).1 =
      "sales" ∧
    (determineOrderTypeFromCodes [⟨"X", "", true⟩] [PyVal.pstr "X"]).2.1 =
      [""] := by
  decide

/-- C3 counterexample: the claim asks that the keys of `mapped` together with
`unmapped`, as a multiset, equal the normalized code list.  With the
normalized list `["A", "A"]` and an active lookup row for `"A"`, the dict
keys are `["A"]` and `unmapped` is `[]`, so the combined multiset has one
`"A"` while the normalized list has two. -/
theorem C3_counterexample :
    ¬ (((codeToCategory (queryFoundCodes [LabourCode.mk "A" "labour" true]
            (cleanedCodes [PyVal.pstr "A", PyVal.pstr "A"]))).map Prod.fst ++
          (determineOrderTypeFromCodes [LabourCode.mk "A" "labour" true]
            [PyVal.pstr "A", PyVal.pstr "A"]).2.2.unmapped).Perm
        (cleanedCodes [PyVal.pstr "A", PyVal.pstr "A"])) := by
  decide

/-- C3 (amended): for a non-empty normalized code list, the keys of `mapped`
and `unmapped` cover the normalized codes as SETS with no code in both, the
keys of `mapped` all come from the normalized list, and `unmapped` is exactly
the normalized list with the mapped codes filtered out — hence it preserves
the original normalized order and keeps duplicates of unmapped codes
(duplicates of MAPPED codes are collapsed into the single dict key, so the
multiset form of the claim fails; see the counterexample). -/
theorem C3_partition (db : List LabourCode) (l : List PyVal)
    (h : cleanedCodes l ≠ []) :
    (∀ c ∈ cleanedCodes l,
        c ∈ (codeToCategory (queryFoundCodes db (cleanedCodes l))).map Prod.fst ∨
          c ∈ (determineOrderTypeFromCodes db l).2.2.unmapped) ∧
    (∀ c ∈ (codeToCategory (queryFoundCodes db (cleanedCodes l))).map Prod.fst,
        c ∉ (determineOrderTypeFromCodes db l).2.2.unmapped) ∧
    (determineOrderTypeFromCodes db l).2.2.unmapped =
      (cleanedCodes l).filter
        (fun c =>
          !(((codeToCategory (queryFoundCodes db (cleanedCodes l))).map
            Prod.fst).contains c)) ∧
    (∀ c ∈ (codeToCategory (queryFoundCodes db (cleanedCodes l))).map Prod.fst,
        c ∈ cleanedCodes l) := by
  have hkey : ∀ c : String,
      c ∈ (codeToCategory (queryFoundCodes db (cleanedCodes l))).map Prod.fst ↔
        c ∈ foundCodeSet (queryFoundCodes db (cleanedCodes l)) := fun c =>
    mem_keys_codeToCategory.trans mem_foundCodeSet.symm
  have hcont : ∀ c : String,
      (((codeToCategory (queryFoundCodes db (cleanedCodes l))).map
          Prod.fst).contains c) =
        ((foundCodeSet (queryFoundCodes db (cleanedCodes l))).contains c) := by
    intro c
    simp only [List.contains, List.elem_eq_mem]
    exact decide_eq_decide.mpr (hkey c)
  refine ⟨?_, ?_, ?_, ?_⟩
  · intro c hc
    by_cases hk : c ∈ (codeToCategory (queryFoundCodes db
        (cleanedCodes l))).map Prod.fst
    · exact Or.inl hk
    · refine Or.inr ?_
      rw [unmapped_eq db l h]
      refine List.mem_filter.mpr ⟨hc, ?_⟩
      have hnf : c ∉ foundCodeSet (queryFoundCodes db (cleanedCodes l)) :=
        fun hf => hk ((hkey c).mpr hf)
      simp [List.contains, hnf]
  · intro c hk hu
    rw [unmapped_eq db l h] at hu
    have h2 := (List.mem_filter.mp hu).2
    have h3 : c ∈ foundCodeSet (queryFoundCodes db (cleanedCodes l)) :=
      (hkey c).mp hk
    simp [List.contains, h3] at h2
  · rw [unmapped_eq db l h]
    apply List.filter_congr
    intro c _
    rw [← hcont c]
  · intro c hk
    have h3 : c ∈ (queryFoundCodes db (cleanedCodes l)).map Prod.fst :=
      mem_keys_codeToCategory.mp hk
    rcases List.mem_map.mp h3 with ⟨r, hr, rfl⟩
    exact mem_queryFoundCodes hr

/-- C3 witness: one mapped code and one unmapped code; the partition theorem
pins `unmapped` to the filtered normalized list, which evaluates to `["B"]`. -/
theorem C3_witness :
    (determineOrderTypeFromCodes [LabourCode.mk "A" "labour" true]
        [PyVal.pstr "A", PyVal.pstr "B"]).2.2.unmapped = ["B"] := by
  have h := C3_partition [LabourCode.mk "A" "labour" true]
      [PyVal.pstr "A", PyVal.pstr "B"] (by decide)
  rw [h.2.2.1]
  decide

/-- C4: when the lookup result carries exactly one distinct category, the
order type is the normalization of that category — a value independent of the
unmapped codes, so additional unmapped codes cannot change it. -/
theorem C4_single_category (db : List LabourCode) (l : List PyVal) (c : String)
    (h : categoriesFound (queryFoundCodes db (cleanedCodes l)) = [c]) :
    (determineOrderTypeFromCodes db l).1 = normalizeCategoryToOrderType c := by
  have hcl : cleanedCodes l ≠ [] := by
    intro he
    rw [he, queryFoundCodes_nil] at h
    simp [categoriesFound] at h
  rw [orderType_eq db l hcl, h, classifyCategories_one]

/-- C4 witness: one recognized `labour` code plus one unmapped code still
yields order type `labour`, not `mixed`. -/
theorem C4_witness :
    (determineOrderTypeFromCodes [LabourCode.mk "LAB01" "labour" true]
        [PyVal.pstr "LAB01", PyVal.pstr "UNKNOWN99"]).1 = "labour" := by
  rw [C4_single_category [LabourCode.mk "LAB01" "labour" true]
      [PyVal.pstr "LAB01", PyVal.pstr "UNKNOWN99"] "labour" (by decide)]
  decide

/-- C5: when the lookup result carries two or more distinct categories, the
order type is `mixed` and the categories list is sorted ascending in the
lexicographic (code-point, case-sensitive) string order, is a permutation of
the distinct categories found, and has no duplicates — so it is the sorted
list of distinct categories regardless of the order the lookup returned
them. -/
theorem C5_mixed (db : List LabourCode) (l : List PyVal)
    (h : 2 ≤ (categoriesFound (queryFoundCodes db (cleanedCodes l))).length) :
    (determineOrderTypeFromCodes db l).1 = "mixed" ∧
    (determineOrderTypeFromCodes db l).2.1.Pairwise (fun a b => a ≤ b) ∧
    (determineOrderTypeFromCodes db l).2.1.Perm
      (categoriesFound (queryFoundCodes db (cleanedCodes l))) ∧
    (determineOrderTypeFromCodes db l).2.1.Nodup := by
  have hcl : cleanedCodes l ≠ [] := by
    intro he
    rw [he, queryFoundCodes_nil] at h
    simp [categoriesFound] at h
  refine ⟨?_, ?_, ?_, ?_⟩
  · rw [orderType_eq db l hcl, classifyCategories_two h]
  · rw [categories_eq db l hcl, classifyCategories_two h]
    exact pairwise_sortStrings _
  · rw [categories_eq db l hcl, classifyCategories_two h]
    exact perm_sortStrings _
  · rw [categories_eq db l hcl, classifyCategories_two h]
    exact (perm_sortStrings _).nodup_iff.mpr (nodup_categoriesFound _)

/-- C5 witness: two distinct categories returned in reverse lookup order
still give `mixed` with a sorted, duplicate-free categories list. -/
theorem C5_witness :
    (determineOrderTypeFromCodes
        [LabourCode.mk "B" "tyre service" true, LabourCode.mk "A" "labour" true]
        [PyVal.pstr "B", PyVal.pstr "A"]).1 = "mixed" ∧
    (determineOrderTypeFromCodes
        [LabourCode.mk "B" "tyre service" true, LabourCode.mk "A" "labour" true]
        [PyVal.pstr "B", PyVal.pstr "A"]).2.1.Pairwise (fun a b => a ≤ b) ∧
    (determineOrderTypeFromCodes
        [LabourCode.mk "B" "tyre service" true, LabourCode.mk "A" "labour" true]
        [PyVal.pstr "B", PyVal.pstr "A"]).2.1.Perm
      (categoriesFound (queryFoundCodes
        [LabourCode.mk "B" "tyre service" true, LabourCode.mk "A" "labour" true]
        (cleanedCodes [PyVal.pstr "B", PyVal.pstr "A"]))) ∧
    (determineOrderTypeFromCodes
        [LabourCode.mk "B" "tyre service" true, LabourCode.mk "A" "labour" true]
        [PyVal.pstr "B", PyVal.pstr "A"]).2.1.Nodup :=
  C5_mixed [LabourCode.mk "B" "tyre service" true, LabourCode.mk "A" "labour" true]
    [PyVal.pstr "B", PyVal.pstr "A"] (by decide)

/-- C8: the order type returned by `determine_order_type_from_codes` is
always one of `labour`, `service`, `sales`, `mixed`; in particular it is
never `inquiry`. -/
theorem C8_order_type_closed (db : List LabourCode) (l : List PyVal) :
    (determineOrderTypeFromCodes db l).1 ∈
      (["labour", "service", "sales", "mixed"] : List String) := by
  by_cases h1 : l = []
  · simp [determineOrderTypeFromCodes, h1]
  · by_cases h2 : cleanedCodes l = []
    · simp [determineOrderTypeFromCodes, h1, h2]
    · rw [orderType_eq db l h2]
      rcases hcats : categoriesFound (queryFoundCodes db (cleanedCodes l)) with
        _ | ⟨c, _ | ⟨d, t⟩⟩
      · simp [classifyCategories]
      · rw [classifyCategories_one]
        simpa using normalizeCategory_mem c
      · have hlen : 2 ≤ (c :: d :: t).length := by
          simp only [List.length_cons]
          omega
        rw [classifyCategories_two hlen]
        simp

/-- C9: whenever the normalized code list is non-empty, the
`categories_found` field of `mapping_info` is present and holds exactly the
categories list of the decision branch (the second element of the returned
triple), not the raw set of categories among the mapped values. -/
theorem C9_categories_found_eq (db : List LabourCode) (l : List PyVal)
    (h : cleanedCodes l ≠ []) :
    (determineOrderTypeFromCodes db l).2.2.categories_found =
      some (determineOrderTypeFromCodes db l).2.1 := by
  rw [determine_eq db l h]

/-- C9 witness: a concrete non-empty input where `categories_found` equals
the returned categories list. -/
theorem C9_witness :
    (determineOrderTypeFromCodes [LabourCode.mk "LAB01" "labour" true]
        [PyVal.pstr "LAB01"]).2.2.categories_found =
      some (determineOrderTypeFromCodes [LabourCode.mk "LAB01" "labour" true]
        [PyVal.pstr "LAB01"]).2.1 :=
  C9_categories_found_eq [LabourCode.mk "LAB01" "labour" true]
    [PyVal.pstr "LAB01"] (by decide)
